import Mathlib

/-!
Verification of the requirements-aggregation core
(`crates/puffin-cli/src/requirements.rs`).

The external collaborators (requirement-string parsing, requirements-file
parsing, filesystem reads, TOML parsing, and name normalization) are out of
scope for the core; they are modelled as an explicit environment of fallible
functions (`Env`), mirroring the boundary calls the source makes outward.
The logic of the core itself — source classification, the extras filter, the
per-source reader and the multi-source merger — is translated directly from
the Rust source.
-/

/-- Errors, kept abstract: either an error produced by an external
collaborator, or such an error wrapped with a `with_context` message. -/
inductive Err where
  | external (msg : String)
  | context (msg : String) (inner : Err)
deriving DecidableEq, Repr

/-- A parsed dependency specifier (`pep508_rs::Requirement`), opaque here. -/
structure Requirement where
  raw : String
deriving DecidableEq, Repr

/-- A normalized package name (`puffin_normalize::PackageName`), opaque here. -/
structure PackageName where
  name : String
deriving DecidableEq, Repr

/-- A normalized extra name (`puffin_normalize::ExtraName`), opaque here. -/
structure ExtraName where
  name : String
deriving DecidableEq, Repr

/-- A filesystem path (`std::path::PathBuf`), modelled by its components. -/
structure PathBuf where
  components : List String
deriving DecidableEq, Repr

/-- Model of `Path::ends_with`: the components of the argument are a
suffix of the components of this path. -/
def PathBuf.ends_with (p : PathBuf) (child : PathBuf) : Bool :=
  child.components.isSuffixOf p.components

/-- Display a path (used only to build context messages). -/
def PathBuf.display (p : PathBuf) : String :=
  String.intercalate "/" p.components

/-- One entry of a parsed requirements file: a requirement plus provenance
metadata (the provenance is irrelevant to this core and omitted). -/
structure RequirementEntry where
  requirement : Requirement
deriving DecidableEq, Repr

/-- The output of the external requirements-file format reader
(`requirements_txt::RequirementsTxt`): flattened requirement entries and
bare constraints. -/
structure RequirementsTxt where
  requirements : List RequirementEntry
  constraints : List Requirement
deriving DecidableEq, Repr

/-- The `[project]` table of a manifest (`pyproject_toml::Project`):
`dependencies` and the values of `optional-dependencies` are already parsed
requirements (the TOML reader parses them during deserialization); the
mapping is ordered (insertion order), modelled as an association list. -/
structure Project where
  name : String
  dependencies : Option (List Requirement)
  optional_dependencies : Option (List (String × List Requirement))
deriving DecidableEq, Repr

/-- A parsed manifest (`pyproject_toml::PyProjectToml`): an optional
`[project]` table. -/
structure PyProjectToml where
  project : Option Project
deriving DecidableEq, Repr

/-- The environment of external collaborators the core calls out to.
Each field models one boundary call listed in the imports of the source. -/
structure Env where
  parseRequirement : String → Except Err Requirement
  currentDir : Except Err PathBuf
  parseRequirementsTxt : PathBuf → PathBuf → Except Err RequirementsTxt
  readToString : PathBuf → Except Err String
  parseToml : String → Except Err PyProjectToml
  packageNameNew : String → Except Err PackageName
  extraNameNew : String → Except Err ExtraName

/-- Rust `enum RequirementsSource`. -/
inductive RequirementsSource where
  | Name (name : String)
  | RequirementsTxt (path : PathBuf)
  | PyprojectToml (path : PathBuf)
deriving DecidableEq, Repr

/-- Rust `impl From<String> for RequirementsSource`. -/
def RequirementsSource.fromString (name : String) : RequirementsSource :=
  RequirementsSource.Name name

/-- Rust `impl From<PathBuf> for RequirementsSource`. -/
def RequirementsSource.fromPath (path : PathBuf) : RequirementsSource :=
  if path.ends_with ⟨["pyproject.toml"]⟩ then
    RequirementsSource.PyprojectToml path
  else
    RequirementsSource.RequirementsTxt path

/-- Rust `enum ExtrasSpecification`. -/
inductive ExtrasSpecification where
  | None
  | All
  | Some (extras : List ExtraName)
deriving DecidableEq, Repr

/-- Rust `ExtrasSpecification::contains`. -/
def ExtrasSpecification.contains : ExtrasSpecification → ExtraName → Bool
  | ExtrasSpecification.All, _ => true
  | ExtrasSpecification.None, _ => false
  | ExtrasSpecification.Some extras, name => extras.contains name

/-- Rust `struct RequirementsSpecification` (field defaults give `Self::default()`). -/
structure RequirementsSpecification where
  project : Option PackageName := none
  requirements : List Requirement := []
  constraints : List Requirement := []
  overrides : List Requirement := []
  extras : Finset ExtraName := ∅
deriving DecidableEq

/-- The `for (name, optional_requirements) in project.optional_dependencies`
loop of `from_source`: normalize each group name (the `?` aborts on the
first failure), and when the filter selects it, record the name and append
the requirements of the group. The accumulator pairs the `used_extras` set with
the `requirements` vector. -/
def processOptional (env : Env) (extras : ExtrasSpecification) :
    List (String × List Requirement) → Finset ExtraName × List Requirement →
    Except Err (Finset ExtraName × List Requirement)
  | [], acc => Except.ok acc
  | (name, optional_requirements) :: rest, acc =>
    match env.extraNameNew name with
    | Except.error e => Except.error e
    | Except.ok normalized_name =>
      if extras.contains normalized_name then
        processOptional env extras rest
          (insert normalized_name acc.1, acc.2 ++ optional_requirements)
      else
        processOptional env extras rest acc

/-- Rust `RequirementsSpecification::from_source`: read the requirements and
constraints from one source. Each `match … | Except.error e => …` is a `?`
in the source; `Err.context` is `with_context`. -/
def from_source (env : Env) (source : RequirementsSource)
    (extras : ExtrasSpecification) : Except Err RequirementsSpecification :=
  match source with
  | RequirementsSource.Name name =>
    match env.parseRequirement name with
    | Except.error e =>
      Except.error (Err.context ("Failed to parse `" ++ name ++ "`") e)
    | Except.ok requirement =>
      Except.ok { project := none, requirements := [requirement],
                  constraints := [], overrides := [], extras := ∅ }
  | RequirementsSource.RequirementsTxt path =>
    match env.currentDir with
    | Except.error e => Except.error e
    | Except.ok cwd =>
      match env.parseRequirementsTxt path cwd with
      | Except.error e => Except.error e
      | Except.ok requirements_txt =>
        Except.ok { project := none,
                    requirements :=
                      requirements_txt.requirements.map
                        (fun entry => entry.requirement),
                    constraints := requirements_txt.constraints,
                    overrides := [], extras := ∅ }
  | RequirementsSource.PyprojectToml path =>
    match env.readToString path with
    | Except.error e => Except.error e
    | Except.ok contents =>
      match env.parseToml contents with
      | Except.error e =>
        Except.error
          (Err.context ("Failed to read `" ++ path.display ++ "`") e)
      | Except.ok pyproject_toml =>
        match pyproject_toml.project with
        | none =>
          Except.ok { project := none, requirements := [],
                      constraints := [], overrides := [], extras := ∅ }
        | some project =>
          match
            (match extras with
             | ExtrasSpecification.None =>
               Except.ok ((∅ : Finset ExtraName),
                          project.dependencies.getD [])
             | _ =>
               processOptional env extras
                 (project.optional_dependencies.getD [])
                 (∅, project.dependencies.getD [])) with
          | Except.error e => Except.error e
          | Except.ok (used_extras, requirements) =>
            match env.packageNameNew project.name with
            | Except.error e =>
              Except.error
                (Err.context
                  ("Invalid `project.name` in " ++ path.display) e)
            | Except.ok project_name =>
              Except.ok { project := some project_name,
                          requirements := requirements,
                          constraints := [], overrides := [],
                          extras := used_extras }

/-- The first loop of `from_sources`: fold the requirement-sources into the
accumulator, extending every list, unioning `extras`, and adopting the
first `project` discovered. -/
def mergeRequirements (env : Env) (extras : ExtrasSpecification) :
    List RequirementsSource → RequirementsSpecification →
    Except Err RequirementsSpecification
  | [], spec => Except.ok spec
  | source :: rest, spec =>
    match from_source env source extras with
    | Except.error e => Except.error e
    | Except.ok src =>
      mergeRequirements env extras rest
        { project := if spec.project.isNone then src.project else spec.project,
          requirements := spec.requirements ++ src.requirements,
          constraints := spec.constraints ++ src.constraints,
          overrides := spec.overrides ++ src.overrides,
          extras := spec.extras ∪ src.extras }

/-- The second loop of `from_sources`: treat everything a constraint-source
produces as a constraint. -/
def mergeConstraints (env : Env) (extras : ExtrasSpecification) :
    List RequirementsSource → RequirementsSpecification →
    Except Err RequirementsSpecification
  | [], spec => Except.ok spec
  | source :: rest, spec =>
    match from_source env source extras with
    | Except.error e => Except.error e
    | Except.ok src =>
      mergeConstraints env extras rest
        { spec with
          constraints :=
            spec.constraints ++ src.requirements ++ src.constraints ++
              src.overrides }

/-- The third loop of `from_sources`: treat everything an override-source
produces as an override. -/
def mergeOverrides (env : Env) (extras : ExtrasSpecification) :
    List RequirementsSource → RequirementsSpecification →
    Except Err RequirementsSpecification
  | [], spec => Except.ok spec
  | source :: rest, spec =>
    match from_source env source extras with
    | Except.error e => Except.error e
    | Except.ok src =>
      mergeOverrides env extras rest
        { spec with
          overrides :=
            spec.overrides ++ src.requirements ++ src.constraints ++
              src.overrides }

/-- Rust `RequirementsSpecification::from_sources`: read the combined
requirements and constraints from a set of sources. -/
def from_sources (env : Env) (requirements constraints overrides :
    List RequirementsSource) (extras : ExtrasSpecification) :
    Except Err RequirementsSpecification :=
  match mergeRequirements env extras requirements {} with
  | Except.error e => Except.error e
  | Except.ok spec =>
    match mergeConstraints env extras constraints spec with
    | Except.error e => Except.error e
    | Except.ok spec => mergeOverrides env extras overrides spec

/-- Rust `RequirementsSpecification::requirements`: the convenience entry point
that reads only the requirements from a set of sources. -/
def requirementsOnly (env : Env)
    (requirements : List RequirementsSource) :
    Except Err (List Requirement) :=
  match from_sources env requirements [] [] ExtrasSpecification.None with
  | Except.error e => Except.error e
  | Except.ok spec => Except.ok spec.requirements

/-- Read each source of a list with `from_source`, failing on the first
error (used to state the per-source contributions of the merger). -/
def from_source_list (env : Env) (xf : ExtrasSpecification) :
    List RequirementsSource → Except Err (List RequirementsSpecification)
  | [] => Except.ok []
  | source :: rest =>
    match from_source env source xf with
    | Except.error e => Except.error e
    | Except.ok s =>
      match from_source_list env xf rest with
      | Except.error e => Except.error e
      | Except.ok ss => Except.ok (s :: ss)

/-- The three lists a read source produces, in field order: this is what a
constraint-source or override-source contributes as a block. -/
def collapsed (s : RequirementsSpecification) : List Requirement :=
  s.requirements ++ s.constraints ++ s.overrides

/-- Normalize every optional-dependency group name of a manifest, failing
on the first name the normalizer rejects (used to state the extras
behaviour of the manifest reader). -/
def normalizeEntries (env : Env) :
    List (String × List Requirement) →
    Except Err (List (ExtraName × List Requirement))
  | [] => Except.ok []
  | (name, reqs) :: rest =>
    match env.extraNameNew name with
    | Except.error e => Except.error e
    | Except.ok n =>
      match normalizeEntries env rest with
      | Except.error e => Except.error e
      | Except.ok ns => Except.ok ((n, reqs) :: ns)

/-- Shorthand for building a concrete requirement. -/
def req (s : String) : Requirement := ⟨s⟩

/-- A concrete manifest table keyed by file contents, for witnesses: `M1`
is a fully valid manifest with two optional-dependency groups, `M2` has no
`[project]` table, `M3` has a valid project name but an extra group whose
name fails normalization, `M4` has both an invalid project name and an
invalid extra group name, and `M5` has an invalid project name but valid
extra groups. -/
def tomlOf (s : String) : Except Err PyProjectToml :=
  if s = "M1" then
    Except.ok ⟨some ⟨"myproj", some [req "base"],
      some [("dev", [req "pytest"]), ("docs", [req "sphinx"])]⟩⟩
  else if s = "M2" then
    Except.ok ⟨none⟩
  else if s = "M3" then
    Except.ok ⟨some ⟨"okproj", none, some [("bad extra", [req "x"])]⟩⟩
  else if s = "M4" then
    Except.ok ⟨some ⟨"bad name", none, some [("bad extra", [req "x"])]⟩⟩
  else if s = "M5" then
    Except.ok ⟨some ⟨"bad name", some [req "d"],
      some [("dev", [req "pytest"])]⟩⟩
  else
    Except.error (Err.external "toml")

/-- A concrete environment for witnesses: reading a file returns its path
rendered as a string, manifests come from `tomlOf`, and normalization
rejects exactly the strings `bad name` (packages) and `bad extra`
(extras). -/
def envW : Env where
  parseRequirement := fun s =>
    if s = "not a valid!!!" then Except.error (Err.external "parse")
    else Except.ok ⟨s⟩
  currentDir := Except.ok ⟨[]⟩
  parseRequirementsTxt := fun _ _ => Except.ok ⟨[⟨req "rt"⟩], [req "rc"]⟩
  readToString := fun p => Except.ok p.display
  parseToml := tomlOf
  packageNameNew := fun s =>
    if s = "bad name" then Except.error (Err.external "invalid package name")
    else Except.ok ⟨s⟩
  extraNameNew := fun s =>
    if s = "bad extra" then Except.error (Err.external "invalid extra name")
    else Except.ok ⟨s⟩

/-- A single-element suffix test is a test on the last element. -/
theorem singleton_isSuffixOf_iff (x : String) (l : List String) :
    [x].isSuffixOf l = true ↔ l.getLast? = some x := by
  rw [List.isSuffixOf_iff_suffix]
  constructor
  · rintro ⟨t, rfl⟩
    simp
  · intro h
    cases l with
    | nil => simp at h
    | cons a t =>
      rw [List.getLast?_eq_getLast _ (by simp)] at h
      have hd := List.dropLast_append_getLast (l := a :: t) (by simp)
      refine ⟨(a :: t).dropLast, ?_⟩
      rw [← hd]
      simp [Option.some.inj h]

/-- The second merger pass appends, for each constraint-source in order,
its three produced lists (in field order) to `constraints`, and changes
nothing else. -/
theorem mergeConstraints_eq (env : Env) (xf : ExtrasSpecification) :
    ∀ (cs : List RequirementsSource) (ss : List RequirementsSpecification)
      (spec : RequirementsSpecification),
      from_source_list env xf cs = Except.ok ss →
      mergeConstraints env xf cs spec = Except.ok
        { spec with
          constraints := spec.constraints ++ (ss.map collapsed).flatten }
  | [], ss, spec, h => by
    cases h
    simp [mergeConstraints]
  | c :: cs, ss, spec, h => by
    unfold from_source_list at h
    cases hc : from_source env c xf with
    | error e => rw [hc] at h; exact absurd h (by simp)
    | ok s =>
      rw [hc] at h
      cases hrest : from_source_list env xf cs with
      | error e => rw [hrest] at h; exact absurd h (by simp)
      | ok ss2 =>
        rw [hrest] at h
        simp at h
        subst h
        unfold mergeConstraints
        simp only [hc]
        rw [mergeConstraints_eq env xf cs ss2 _ hrest]
        simp [collapsed]

/-- The third merger pass appends, for each override-source in order, its
three produced lists (in field order) to `overrides`, and changes nothing
else. -/
theorem mergeOverrides_eq (env : Env) (xf : ExtrasSpecification) :
    ∀ (os : List RequirementsSource) (ts : List RequirementsSpecification)
      (spec : RequirementsSpecification),
      from_source_list env xf os = Except.ok ts →
      mergeOverrides env xf os spec = Except.ok
        { spec with
          overrides := spec.overrides ++ (ts.map collapsed).flatten }
  | [], ts, spec, h => by
    cases h
    simp [mergeOverrides]
  | c :: os, ts, spec, h => by
    unfold from_source_list at h
    cases hc : from_source env c xf with
    | error e => rw [hc] at h; exact absurd h (by simp)
    | ok s =>
      rw [hc] at h
      cases hrest : from_source_list env xf os with
      | error e => rw [hrest] at h; exact absurd h (by simp)
      | ok ts2 =>
        rw [hrest] at h
        simp at h
        subst h
        unfold mergeOverrides
        simp only [hc]
        rw [mergeOverrides_eq env xf os ts2 _ hrest]
        simp [collapsed]

/-- Characterization of the optional-dependencies loop: when every group
name normalizes, it returns the accumulator extended with exactly the
selected groups, names into the set, requirements appended in order. -/
theorem processOptional_eq (env : Env) (xf : ExtrasSpecification) :
    ∀ (entries : List (String × List Requirement))
      (ne : List (ExtraName × List Requirement))
      (u : Finset ExtraName) (r : List Requirement),
      normalizeEntries env entries = Except.ok ne →
      processOptional env xf entries (u, r) = Except.ok
        (u ∪ ((ne.filter fun e => xf.contains e.1).map Prod.fst).toFinset,
         r ++ ((ne.filter fun e => xf.contains e.1).map Prod.snd).flatten)
  | [], ne, u, r, h => by
    cases h
    simp [processOptional]
  | (name, reqs) :: rest, ne, u, r, h => by
    unfold normalizeEntries at h
    cases hn : env.extraNameNew name with
    | error e => rw [hn] at h; exact absurd h (by simp)
    | ok n =>
      rw [hn] at h
      cases hrest : normalizeEntries env rest with
      | error e => rw [hrest] at h; exact absurd h (by simp)
      | ok ns =>
        rw [hrest] at h
        simp at h
        subst h
        unfold processOptional
        simp only [hn]
        by_cases hc : xf.contains n
        · rw [if_pos hc]
          rw [processOptional_eq env xf rest ns _ _ hrest]
          simp [List.filter_cons, hc, Finset.insert_union,
            Finset.union_insert]
        · rw [if_neg hc]
          rw [processOptional_eq env xf rest ns _ _ hrest]
          simp [List.filter_cons, hc]

/-- A singleton selection filters by equality with the selected name. -/
theorem filter_contains_singleton (x : ExtraName)
    (l : List (ExtraName × List Requirement)) :
    (l.filter fun e => ExtrasSpecification.contains
        (ExtrasSpecification.Some [x]) e.1) =
    (l.filter fun e => e.1 = x) := by
  apply List.filter_congr
  intro e _
  simp [ExtrasSpecification.contains]

/-- If the selected name occurs among the group names, the names kept by
the singleton filter form exactly the singleton set. -/
theorem filter_fst_eq_toFinset (x : ExtraName)
    (l : List (ExtraName × List Requirement))
    (h : x ∈ l.map Prod.fst) :
    ((l.filter fun e => e.1 = x).map Prod.fst).toFinset = {x} := by
  ext y
  simp only [List.mem_toFinset, List.mem_map, List.mem_filter,
    Finset.mem_singleton]
  constructor
  · rintro ⟨e, ⟨_, he⟩, rfl⟩
    simpa using he
  · rintro rfl
    obtain ⟨e, he, hfst⟩ := List.mem_map.mp h
    exact ⟨e, ⟨he, by simp [hfst]⟩, hfst⟩

/-- If the selected name does not occur among the group names, the
singleton filter keeps nothing. -/
theorem filter_fst_ne_nil (y : ExtraName)
    (l : List (ExtraName × List Requirement))
    (h : y ∉ l.map Prod.fst) :
    (l.filter fun e => e.1 = y) = [] := by
  rw [List.filter_eq_nil_iff]
  intro e he
  simp only [decide_eq_true_eq]
  intro hy
  exact h (List.mem_map.mpr ⟨e, he, hy⟩)

/-- Under the empty selection the loop selects nothing: a successful run
returns the accumulator unchanged (though it still normalizes names). -/
theorem processOptional_someEmpty (env : Env) :
    ∀ (entries : List (String × List Requirement))
      (acc out : Finset ExtraName × List Requirement),
      processOptional env (ExtrasSpecification.Some []) entries acc =
        Except.ok out → out = acc
  | [], acc, out, h => by
    simp [processOptional] at h
    exact h.symm
  | (name, reqs) :: rest, acc, out, h => by
    unfold processOptional at h
    cases hn : env.extraNameNew name with
    | error e => rw [hn] at h; exact absurd h (by simp)
    | ok n =>
      rw [hn] at h
      simp [ExtrasSpecification.contains] at h
      exact processOptional_someEmpty env rest acc out h

/-- Fail-fast of the first merger pass: once the sources before `src` have
been read successfully, an error while reading `src` is the error of the
whole pass. -/
theorem mergeRequirements_fail (env : Env) (xf : ExtrasSpecification)
    (src : RequirementsSource) (e : Err)
    (hsrc : from_source env src xf = Except.error e) :
    ∀ (pre post : List RequirementsSource)
      (spec0 spec1 : RequirementsSpecification),
      mergeRequirements env xf pre spec0 = Except.ok spec1 →
      mergeRequirements env xf (pre ++ src :: post) spec0 = Except.error e
  | [], post, spec0, spec1, h => by
    simp only [List.nil_append]
    unfold mergeRequirements
    simp only [hsrc]
  | p :: pre, post, spec0, spec1, h => by
    rw [List.cons_append]
    unfold mergeRequirements at h ⊢
    cases hp : from_source env p xf with
    | error f => simp only [hp] at h; exact absurd h (by simp)
    | ok s =>
      simp only [hp] at h ⊢
      exact mergeRequirements_fail env xf src e hsrc pre post _ spec1 h

/-- Fail-fast of the whole merger: a requirement-source that fails to read
makes the aggregation fail with that error, whatever follows. -/
theorem from_sources_fail (env : Env) (xf : ExtrasSpecification)
    (src : RequirementsSource) (e : Err)
    (pre post cs os : List RequirementsSource)
    (spec1 : RequirementsSpecification)
    (hsrc : from_source env src xf = Except.error e)
    (hpre : mergeRequirements env xf pre {} = Except.ok spec1) :
    from_sources env (pre ++ src :: post) cs os xf = Except.error e := by
  unfold from_sources
  rw [mergeRequirements_fail env xf src e hsrc pre post _ spec1 hpre]

/-- C1: for requirement-sources `[A, B]` with empty constraint- and
override-source lists, the merged requirements are the requirements of `A`
followed by those of `B`, and the merged project is the project of `A`
when `A` sets one, else the project of `B` (first-wins); the other fields
concatenate the same way. -/
theorem merge_pair_requirements_and_project (env : Env)
    (xf : ExtrasSpecification) (A B : RequirementsSource)
    (a b : RequirementsSpecification)
    (hA : from_source env A xf = Except.ok a)
    (hB : from_source env B xf = Except.ok b) :
    from_sources env [A, B] [] [] xf = Except.ok
      { project := if a.project.isSome then a.project else b.project,
        requirements := a.requirements ++ b.requirements,
        constraints := a.constraints ++ b.constraints,
        overrides := a.overrides ++ b.overrides,
        extras := a.extras ∪ b.extras } := by
  simp [from_sources, mergeRequirements, mergeConstraints, mergeOverrides,
    hA, hB]
  cases h : a.project <;> simp [h]

/-- Witness for C1: a direct name followed by a manifest; the manifest is
second yet supplies the project name because the name source sets none. -/
theorem merge_pair_requirements_and_project_witness :
    from_sources envW
      [RequirementsSource.Name "flask",
       RequirementsSource.PyprojectToml ⟨["M1"]⟩] [] []
      ExtrasSpecification.None = Except.ok
      { project := some ⟨"myproj"⟩,
        requirements := [req "flask", req "base"],
        constraints := [], overrides := [], extras := ∅ } :=
  merge_pair_requirements_and_project envW ExtrasSpecification.None
    (RequirementsSource.Name "flask")
    (RequirementsSource.PyprojectToml ⟨["M1"]⟩)
    { project := none, requirements := [req "flask"], constraints := [],
      overrides := [], extras := ∅ }
    { project := some ⟨"myproj"⟩, requirements := [req "base"],
      constraints := [], overrides := [], extras := ∅ }
    rfl rfl

/-- C2: every constraint-source contributes its three produced lists
(requirements, constraints, overrides — in that field order, in source
order) to the final constraints, and nothing to requirements, overrides,
project or extras; override-sources collapse the same way into the final
overrides. -/
theorem constraint_and_override_collapsing (env : Env)
    (xf : ExtrasSpecification) (rs cs os : List RequirementsSource)
    (specR : RequirementsSpecification)
    (ss ts : List RequirementsSpecification)
    (h1 : from_sources env rs [] [] xf = Except.ok specR)
    (h2 : from_source_list env xf cs = Except.ok ss)
    (h3 : from_source_list env xf os = Except.ok ts) :
    from_sources env rs cs os xf = Except.ok
      { specR with
        constraints := specR.constraints ++ (ss.map collapsed).flatten,
        overrides := specR.overrides ++ (ts.map collapsed).flatten } := by
  have hmr : mergeRequirements env xf rs {} = Except.ok specR := by
    unfold from_sources at h1
    cases hm : mergeRequirements env xf rs {} with
    | error e => rw [hm] at h1; exact absurd h1 (by simp)
    | ok spec1 =>
      rw [hm] at h1
      simp [mergeConstraints, mergeOverrides] at h1
      rw [h1]
  unfold from_sources
  simp only [hmr]
  rw [mergeConstraints_eq env xf cs ss specR h2]
  simp only []
  rw [mergeOverrides_eq env xf os ts _ h3]

/-- Witness for C2: a constraint-source whose read yields one requirement
and one constraint contributes both, in that order, to the final
constraints; an override-source contributes its requirement to the final
overrides. -/
theorem constraint_and_override_collapsing_witness :
    from_sources envW [RequirementsSource.Name "flask"]
      [RequirementsSource.RequirementsTxt ⟨["r.txt"]⟩]
      [RequirementsSource.Name "ovr"]
      ExtrasSpecification.None = Except.ok
      { project := none,
        requirements := [req "flask"],
        constraints := [req "rt", req "rc"],
        overrides := [req "ovr"], extras := ∅ } :=
  constraint_and_override_collapsing envW ExtrasSpecification.None
    [RequirementsSource.Name "flask"]
    [RequirementsSource.RequirementsTxt ⟨["r.txt"]⟩]
    [RequirementsSource.Name "ovr"]
    { project := none, requirements := [req "flask"], constraints := [],
      overrides := [], extras := ∅ }
    [{ project := none, requirements := [req "rt"],
       constraints := [req "rc"], overrides := [], extras := ∅ }]
    [{ project := none, requirements := [req "ovr"], constraints := [],
       overrides := [], extras := ∅ }]
    rfl rfl rfl

/-- Counterexample for C3: with a manifest whose only optional-dependency
group name fails normalization, reading under the empty selection
`Some ∅` fails (the group names are still normalized), while reading
under `None` succeeds — the two filters do not produce the same result
for every source. -/
theorem some_empty_filter_counterexample :
    from_source envW (RequirementsSource.PyprojectToml ⟨["M3"]⟩)
        (ExtrasSpecification.Some []) =
      Except.error (Err.external "invalid extra name") ∧
    from_source envW (RequirementsSource.PyprojectToml ⟨["M3"]⟩)
        ExtrasSpecification.None =
      Except.ok { project := some ⟨"okproj"⟩, requirements := [],
                  constraints := [], overrides := [], extras := ∅ } ∧
    from_source envW (RequirementsSource.PyprojectToml ⟨["M3"]⟩)
        (ExtrasSpecification.Some []) ≠
      from_source envW (RequirementsSource.PyprojectToml ⟨["M3"]⟩)
        ExtrasSpecification.None := by
  refine ⟨rfl, rfl, ?_⟩
  intro h
  rw [(rfl : from_source envW (RequirementsSource.PyprojectToml ⟨["M3"]⟩)
        (ExtrasSpecification.Some []) =
      Except.error (Err.external "invalid extra name"))] at h
  rw [(rfl : from_source envW (RequirementsSource.PyprojectToml ⟨["M3"]⟩)
        ExtrasSpecification.None =
      Except.ok { project := some ⟨"okproj"⟩, requirements := [],
                  constraints := [], overrides := [], extras := ∅ })] at h
  exact Except.noConfusion h

/-- C3 (amended): the membership predicate under `Some ∅` coincides with
`None`, and whenever reading a source under `Some ∅` succeeds, reading it
under `None` gives the very same result; the filters differ only in that
`Some ∅` still normalizes every optional-dependency group name of a
manifest and can therefore fail where `None` cannot. -/
theorem some_empty_filter_amended (env : Env)
    (source : RequirementsSource) (r : RequirementsSpecification)
    (name : ExtraName)
    (h : from_source env source (ExtrasSpecification.Some []) =
      Except.ok r) :
    from_source env source ExtrasSpecification.None = Except.ok r ∧
    ExtrasSpecification.contains (ExtrasSpecification.Some []) name =
      ExtrasSpecification.contains ExtrasSpecification.None name := by
  refine ⟨?_, rfl⟩
  cases source with
  | Name n => exact h
  | RequirementsTxt p => exact h
  | PyprojectToml p =>
    unfold from_source at h ⊢
    cases hrd : env.readToString p with
    | error e => simp only [hrd] at h; exact absurd h (by simp)
    | ok contents =>
      simp only [hrd] at h ⊢
      cases htm : env.parseToml contents with
      | error e => simp only [htm] at h; exact absurd h (by simp)
      | ok pt =>
        simp only [htm] at h ⊢
        cases hpj : pt.project with
        | none => simp only [hpj] at h ⊢; exact h
        | some pr =>
          simp only [hpj] at h ⊢
          cases hpo : processOptional env (ExtrasSpecification.Some [])
              (pr.optional_dependencies.getD [])
              (∅, pr.dependencies.getD []) with
          | error e => simp only [hpo] at h; exact absurd h (by simp)
          | ok out =>
            simp only [hpo] at h
            have hacc := processOptional_someEmpty env _ _ _ hpo
            subst hacc
            exact h

/-- Witness for C3 (amended): the valid manifest `M1` read under the empty
selection succeeds, and reading it under `None` gives the same result. -/
theorem some_empty_filter_amended_witness :
    from_source envW (RequirementsSource.PyprojectToml ⟨["M1"]⟩)
        ExtrasSpecification.None =
      Except.ok { project := some ⟨"myproj"⟩,
                  requirements := [req "base"], constraints := [],
                  overrides := [], extras := ∅ } ∧
    ExtrasSpecification.contains (ExtrasSpecification.Some []) ⟨"dev"⟩ =
      ExtrasSpecification.contains ExtrasSpecification.None ⟨"dev"⟩ :=
  some_empty_filter_amended envW
    (RequirementsSource.PyprojectToml ⟨["M1"]⟩)
    { project := some ⟨"myproj"⟩, requirements := [req "base"],
      constraints := [], overrides := [], extras := ∅ }
    ⟨"dev"⟩ rfl

/-- Counterexample for C4: in manifest `M4` the project name fails
normalization, yet under filter `All` the read fails with the NameError of
the optional-dependency group — the extras are processed before the
project name is validated, so the read does not fail with the
project-name NameError "before any extras are processed". -/
theorem invalid_project_name_counterexample :
    envW.packageNameNew "bad name" =
      Except.error (Err.external "invalid package name") ∧
    from_source envW (RequirementsSource.PyprojectToml ⟨["M4"]⟩)
        ExtrasSpecification.All =
      Except.error (Err.external "invalid extra name") ∧
    Err.external "invalid extra name" ≠
      Err.context
        ("Invalid `project.name` in " ++ (⟨["M4"]⟩ : PathBuf).display)
        (Err.external "invalid package name") := by
  refine ⟨rfl, rfl, ?_⟩
  intro h
  exact Err.noConfusion h

/-- C4 (amended): when the project name of a manifest fails normalization
and the optional-dependency processing itself raises no error, the read
fails with the project-name NameError — wrapped in a context naming the
manifest path — after the extras have been processed, and any merge whose
requirement-sources contain that manifest (the earlier ones succeeding)
fails as a whole with that same error. -/
theorem invalid_project_name_amended (env : Env) (path : PathBuf)
    (contents : String) (pt : PyProjectToml) (pr : Project)
    (xf : ExtrasSpecification) (e : Err)
    (out : Finset ExtraName × List Requirement)
    (pre post cs os : List RequirementsSource)
    (spec1 : RequirementsSpecification)
    (h1 : env.readToString path = Except.ok contents)
    (h2 : env.parseToml contents = Except.ok pt)
    (h3 : pt.project = some pr)
    (h4 : env.packageNameNew pr.name = Except.error e)
    (h5 : processOptional env xf (pr.optional_dependencies.getD [])
      (∅, pr.dependencies.getD []) = Except.ok out)
    (hpre : mergeRequirements env xf pre {} = Except.ok spec1) :
    from_source env (RequirementsSource.PyprojectToml path) xf =
      Except.error
        (Err.context ("Invalid `project.name` in " ++ path.display) e) ∧
    from_sources env
        (pre ++ RequirementsSource.PyprojectToml path :: post) cs os xf =
      Except.error
        (Err.context ("Invalid `project.name` in " ++ path.display) e) := by
  obtain ⟨u, r⟩ := out
  have hfs : from_source env (RequirementsSource.PyprojectToml path) xf =
      Except.error
        (Err.context ("Invalid `project.name` in " ++ path.display) e) := by
    unfold from_source
    simp only [h1, h2, h3]
    cases xf with
    | None => simp only [h4]
    | All => simp only [h5, h4]
    | Some sel => simp only [h5, h4]
  exact ⟨hfs, from_sources_fail env xf _ _ pre post cs os spec1 hfs hpre⟩

/-- Witness for C4 (amended): manifest `M5` has an invalid project name
and valid extras; reading it under `All` fails with the contextualized
project-name NameError, and a merge reading a valid name source and then
`M5` fails with that error. -/
theorem invalid_project_name_amended_witness :
    from_source envW (RequirementsSource.PyprojectToml ⟨["M5"]⟩)
        ExtrasSpecification.All =
      Except.error
        (Err.context
          ("Invalid `project.name` in " ++ (⟨["M5"]⟩ : PathBuf).display)
          (Err.external "invalid package name")) ∧
    from_sources envW
        ([RequirementsSource.Name "flask"] ++
          RequirementsSource.PyprojectToml ⟨["M5"]⟩ :: []) [] []
        ExtrasSpecification.All =
      Except.error
        (Err.context
          ("Invalid `project.name` in " ++ (⟨["M5"]⟩ : PathBuf).display)
          (Err.external "invalid package name")) :=
  invalid_project_name_amended envW ⟨["M5"]⟩ "M5"
    ⟨some ⟨"bad name", some [req "d"], some [("dev", [req "pytest"])]⟩⟩
    ⟨"bad name", some [req "d"], some [("dev", [req "pytest"])]⟩
    ExtrasSpecification.All (Err.external "invalid package name")
    (({ExtraName.mk "dev"} : Finset ExtraName), [req "d", req "pytest"])
    [RequirementsSource.Name "flask"] [] [] []
    { project := none, requirements := [req "flask"], constraints := [],
      overrides := [], extras := ∅ }
    rfl rfl rfl rfl rfl rfl

/-- C5: classification is a pure function of input shape — a literal
string always classifies as a direct name, and a path classifies as a
project manifest exactly when its final component is the literal
`pyproject.toml` (case-sensitive), as a requirements file otherwise,
regardless of extension. -/
theorem classification_pure :
    (∀ s, RequirementsSource.fromString s = RequirementsSource.Name s) ∧
    (∀ p : PathBuf,
      (RequirementsSource.fromPath p = RequirementsSource.PyprojectToml p ↔
        p.components.getLast? = some "pyproject.toml") ∧
      (RequirementsSource.fromPath p = RequirementsSource.RequirementsTxt p ↔
        p.components.getLast? ≠ some "pyproject.toml")) := by
  refine ⟨fun s => rfl, fun p => ?_⟩
  unfold RequirementsSource.fromPath PathBuf.ends_with
  by_cases h : p.components.getLast? = some "pyproject.toml"
  · rw [if_pos (by rw [singleton_isSuffixOf_iff]; exact h)]
    simp [h]
  · rw [if_neg (by rw [singleton_isSuffixOf_iff]; exact h)]
    simp [h]

/-- C6: for a manifest with a `[project]` table whose group names all
normalize: under `All` every group is appended (in order, after the base
dependencies) and every normalized name is recorded in `extras`; under
`None` no group is included and `extras` is empty; under `Some {x}` with
`x` a present group, exactly the groups named `x` are appended and
`extras = {x}`; and under `Some {y}` with `y` absent, nothing is added
and no error is raised. -/
theorem manifest_extras_filtering (env : Env) (path : PathBuf)
    (contents : String) (pt : PyProjectToml) (pr : Project)
    (pn : PackageName) (ne : List (ExtraName × List Requirement))
    (x y : ExtraName)
    (h1 : env.readToString path = Except.ok contents)
    (h2 : env.parseToml contents = Except.ok pt)
    (h3 : pt.project = some pr)
    (h4 : env.packageNameNew pr.name = Except.ok pn)
    (h5 : normalizeEntries env (pr.optional_dependencies.getD []) =
      Except.ok ne)
    (hx : x ∈ ne.map Prod.fst)
    (hy : y ∉ ne.map Prod.fst) :
    from_source env (RequirementsSource.PyprojectToml path)
        ExtrasSpecification.All = Except.ok
      { project := some pn,
        requirements :=
          pr.dependencies.getD [] ++ (ne.map Prod.snd).flatten,
        constraints := [], overrides := [],
        extras := (ne.map Prod.fst).toFinset } ∧
    from_source env (RequirementsSource.PyprojectToml path)
        ExtrasSpecification.None = Except.ok
      { project := some pn,
        requirements := pr.dependencies.getD [],
        constraints := [], overrides := [], extras := ∅ } ∧
    from_source env (RequirementsSource.PyprojectToml path)
        (ExtrasSpecification.Some [x]) = Except.ok
      { project := some pn,
        requirements :=
          pr.dependencies.getD [] ++
            ((ne.filter fun e => e.1 = x).map Prod.snd).flatten,
        constraints := [], overrides := [], extras := {x} } ∧
    from_source env (RequirementsSource.PyprojectToml path)
        (ExtrasSpecification.Some [y]) = Except.ok
      { project := some pn,
        requirements := pr.dependencies.getD [],
        constraints := [], overrides := [], extras := ∅ } := by
  refine ⟨?_, ?_, ?_, ?_⟩
  · unfold from_source
    simp only [h1, h2, h3]
    rw [processOptional_eq env ExtrasSpecification.All _ ne ∅ _ h5]
    simp [h4, ExtrasSpecification.contains]
  · unfold from_source
    simp only [h1, h2, h3, h4]
  · unfold from_source
    simp only [h1, h2, h3]
    rw [processOptional_eq env (ExtrasSpecification.Some [x]) _ ne ∅ _ h5]
    rw [filter_contains_singleton, filter_fst_eq_toFinset x ne hx]
    simp [h4]
  · unfold from_source
    simp only [h1, h2, h3]
    rw [processOptional_eq env (ExtrasSpecification.Some [y]) _ ne ∅ _ h5]
    rw [filter_contains_singleton, filter_fst_ne_nil y ne hy]
    simp [h4]

/-- Witness for C6: manifest `M1` with groups `dev` and `docs`, selecting
`dev` (present) and `missing` (absent). -/
theorem manifest_extras_filtering_witness :
    from_source envW (RequirementsSource.PyprojectToml ⟨["M1"]⟩)
        ExtrasSpecification.All = Except.ok
      { project := some ⟨"myproj"⟩,
        requirements := [req "base", req "pytest", req "sphinx"],
        constraints := [], overrides := [],
        extras := ([ExtraName.mk "dev", ExtraName.mk "docs"]).toFinset } ∧
    from_source envW (RequirementsSource.PyprojectToml ⟨["M1"]⟩)
        ExtrasSpecification.None = Except.ok
      { project := some ⟨"myproj"⟩, requirements := [req "base"],
        constraints := [], overrides := [], extras := ∅ } ∧
    from_source envW (RequirementsSource.PyprojectToml ⟨["M1"]⟩)
        (ExtrasSpecification.Some [⟨"dev"⟩]) = Except.ok
      { project := some ⟨"myproj"⟩,
        requirements := [req "base", req "pytest"],
        constraints := [], overrides := [],
        extras := ({ExtraName.mk "dev"} : Finset ExtraName) } ∧
    from_source envW (RequirementsSource.PyprojectToml ⟨["M1"]⟩)
        (ExtrasSpecification.Some [⟨"missing"⟩]) = Except.ok
      { project := some ⟨"myproj"⟩, requirements := [req "base"],
        constraints := [], overrides := [], extras := ∅ } :=
  manifest_extras_filtering envW ⟨["M1"]⟩ "M1"
    ⟨some ⟨"myproj", some [req "base"],
      some [("dev", [req "pytest"]), ("docs", [req "sphinx"])]⟩⟩
    ⟨"myproj", some [req "base"],
      some [("dev", [req "pytest"]), ("docs", [req "sphinx"])]⟩
    ⟨"myproj"⟩
    [(⟨"dev"⟩, [req "pytest"]), (⟨"docs"⟩, [req "sphinx"])]
    ⟨"dev"⟩ ⟨"missing"⟩
    rfl rfl rfl rfl rfl (by decide) (by decide)

/-- C7: a readable, syntactically valid manifest without a `[project]`
table reads successfully, under any filter, to the empty fragment. -/
theorem manifest_without_project_table (env : Env) (path : PathBuf)
    (contents : String) (pt : PyProjectToml) (xf : ExtrasSpecification)
    (h1 : env.readToString path = Except.ok contents)
    (h2 : env.parseToml contents = Except.ok pt)
    (h3 : pt.project = none) :
    from_source env (RequirementsSource.PyprojectToml path) xf =
      Except.ok { project := none, requirements := [], constraints := [],
                  overrides := [], extras := ∅ } := by
  unfold from_source
  simp only [h1, h2, h3]

/-- Witness for C7: manifest `M2` has no `[project]` table. -/
theorem manifest_without_project_table_witness :
    from_source envW (RequirementsSource.PyprojectToml ⟨["M2"]⟩)
        ExtrasSpecification.All =
      Except.ok { project := none, requirements := [], constraints := [],
                  overrides := [], extras := ∅ } :=
  manifest_without_project_table envW ⟨["M2"]⟩ "M2" ⟨none⟩
    ExtrasSpecification.All rfl rfl rfl

/-- C8: the convenience entry point equals the full merger applied with
empty constraint- and override-source lists under filter `None`, with the
same success-or-error outcome, projected to the requirements field. -/
theorem requirements_entry_point_equiv (env : Env)
    (rs : List RequirementsSource) :
    requirementsOnly env rs =
      Except.map (fun s => s.requirements)
        (from_sources env rs [] [] ExtrasSpecification.None) := by
  unfold requirementsOnly
  cases h : from_sources env rs [] [] ExtrasSpecification.None <;>
    simp [h, Except.map]

/-- C9: reading a requirements-file source does not depend on the extras
filter at all — any two filters give identical results. -/
theorem requirements_file_ignores_filter (env : Env) (p : PathBuf)
    (xf1 xf2 : ExtrasSpecification) :
    from_source env (RequirementsSource.RequirementsTxt p) xf1 =
      from_source env (RequirementsSource.RequirementsTxt p) xf2 := rfl

/-- C10: under filter `None` the manifest reader never consults the
extra-name normalizer: replacing that collaborator by any function
whatsoever — including one that fails on every group name — leaves the
result unchanged, so no NameError can arise from an optional-dependency
group name. -/
theorem none_filter_ignores_extra_normalization (env : Env)
    (f : String → Except Err ExtraName) (path : PathBuf) :
    from_source { env with extraNameNew := f }
        (RequirementsSource.PyprojectToml path) ExtrasSpecification.None =
      from_source env (RequirementsSource.PyprojectToml path)
        ExtrasSpecification.None := rfl
